import Mathlib

/-!
Verification development for the instantgrade grading pipeline.

The Python sources are embedded shallowly:
* dynamic execution of Python code strings (`exec`) is modelled by an oracle
  of type `PyExec σ`: given a code string and a namespace state it returns the
  (possibly mutated) namespace together with an optional raised exception —
  mutations performed before an exception are retained, as with CPython;
* namespaces are either an abstract state type `σ` (comparison engine) or an
  association list `List (String × α)` when key filtering matters (executor);
* Python string primitives are modelled by structurally recursive functions
  on character lists (`pyStrip`, `pyTake`, `pyStartsWith`, `pySplitlines`),
  and floating point score arithmetic by `ℚ`.
-/

namespace Instantgrade

/-!
Python string primitives are embedded as structurally recursive functions on
the character list of a `String` (the library's `String.trim`, `String.take`,
`String.startsWith` and `String.splitOn` are extensionally the same but are
defined by well-founded recursion, which the kernel cannot evaluate).
-/

/-- Python `str.strip()`: drop leading and trailing whitespace.  (Python's
whitespace set is slightly larger than `Char.isWhitespace`; the difference is
immaterial here.) -/
def pyStrip (s : String) : String :=
  String.mk
    (((s.data.dropWhile Char.isWhitespace).reverse.dropWhile
        Char.isWhitespace).reverse)

/-- Python slicing `s[:n]`. -/
def pyTake (s : String) (n : Nat) : String := String.mk (s.data.take n)

/-- Python `s.startswith(pre)`. -/
def pyStartsWith (s pre : String) : Bool := pre.data.isPrefixOf s.data

/-- Split a character list at newline characters (keeping empty segments). -/
def splitNl : List Char → List (List Char)
  | [] => [[]]
  | a :: rest =>
    let r := splitNl rest
    if a = '\n' then [] :: r
    else
      match r with
      | [] => [[a]]
      | h :: t => (a :: h) :: t

/-- Python `str.splitlines` restricted to the newline separator: splits on
`"\n"` and produces no trailing empty line for a trailing newline
(`"a\n"` gives `["a"]`, `""` gives `[]`). -/
def pySplitlines (s : String) : List String :=
  let parts := (splitNl s.data).map String.mk
  if parts.getLastD "" = "" then parts.dropLast else parts

/-- An exception raised by executing Python code: either an `AssertionError`
carrying its `args`, or any other exception with its type name and message. -/
inductive PyErr where
  | assertionError (args : List String)
  | general (kind : String) (msg : String)
deriving DecidableEq, Repr

/-- `type(exc).__name__`. -/
def PyErr.kind : PyErr → String
  | .assertionError _ => "AssertionError"
  | .general k _ => k

/-- `str(exc)` (first argument for assertion errors, message otherwise). -/
def PyErr.msg : PyErr → String
  | .assertionError args => args.headD ""
  | .general _ m => m

/-- Oracle modelling `exec(compile(code, ..., "exec"), ns)`: the namespace is
mutated in place (returned as the first component) and an exception may be
raised (second component). -/
def PyExec (σ : Type) : Type := String → σ → σ × Option PyErr

/-! ## comparison/comparison_service.py -/

/-- `extract_assertion_line`: first line whose stripped text starts with
`assert`, stripped; the whole stripped code as a fallback. -/
def extract_assertion_line (code : String) : String :=
  match (pySplitlines code).find?
      (fun line => pyStartsWith (pyStrip line) "assert") with
  | some line => pyStrip line
  | none => pyStrip code

/-- `ComparisonService._format_assertion_error`. -/
def format_assertion_error (code : String) (args : List String) : String :=
  let assertion_line := extract_assertion_line code
  match args with
  | a :: _ =>
      "Assertion failed.\nAssertion: " ++ assertion_line ++ "\nMessage: " ++ a
  | [] =>
      "Assertion failed.\nAssertion: " ++ assertion_line ++
        "\nNo message was provided. Add an assertion message for clarity."

/-- `ComparisonService._format_general_error`. -/
def format_general_error (code : String) (kind msg : String) : String :=
  "Execution error.\nCode: " ++ pyStrip code ++ "\nError Type: " ++ kind ++
    "\nDetails: " ++ msg

/-- The context-failure message built inside `run_assertions`. -/
def format_context_error (e : PyErr) : String :=
  "Context setup failed.\nError Type: " ++ e.kind ++ "\nDetails: " ++ e.msg ++ "\n"

/-- One result dictionary appended by `ComparisonService.run_assertions`. -/
structure Outcome where
  question : String
  assertion : String
  status : String
  error : Option String
  score : Nat
deriving DecidableEq, Repr

/-- `question_name or "unknown"` (Python truthiness: `None` and `""` both
fall back to `"unknown"`). -/
def questionLabel (question_name : Option String) : String :=
  match question_name with
  | some q => if q = "" then "unknown" else q
  | none => "unknown"

/-- The `for code in assertions` loop of `run_assertions`: each assertion is
executed against the threaded namespace; an exception is classified
(`AssertionError` vs any other) and recorded, never propagated. -/
def run_assertion_list {σ : Type} (E : PyExec σ) (qn : String) :
    σ → List String → List Outcome × σ
  | ns, [] => ([], ns)
  | ns, code :: rest =>
    let step := E code ns
    let oc : Outcome :=
      match step.2 with
      | none => ⟨qn, code, "passed", none, 1⟩
      | some (.assertionError args) =>
          ⟨qn, code, "failed", some (format_assertion_error code args), 0⟩
      | some (.general k m) =>
          ⟨qn, code, "failed", some (format_general_error code k m), 0⟩
    let tail := run_assertion_list E qn step.1 rest
    (oc :: tail.1, tail.2)

/-- `ComparisonService.run_assertions`.  The Python function mutates
`student_namespace` in place and returns the results list; the embedding
returns the results list together with the caller-visible namespace. -/
def run_assertions {σ : Type} (E : PyExec σ) (student_namespace : σ)
    (assertions : List String) (question_name : Option String)
    (context_code : Option String) : List Outcome × σ :=
  let qn := questionLabel question_name
  match context_code with
  | some c =>
    if c = "" then run_assertion_list E qn student_namespace assertions
    else
      let step := E c student_namespace
      match step.2 with
      | some e =>
          ([⟨qn, "[context setup]", "failed", some (format_context_error e), 0⟩],
            step.1)
      | none => run_assertion_list E qn step.1 assertions
  | none => run_assertion_list E qn student_namespace assertions

/-- Sequentially executing a list of code strings, keeping only the namespace. -/
def execStates {σ : Type} (E : PyExec σ) (ns : σ) (codes : List String) : σ :=
  codes.foldl (fun s code => (E code s).1) ns

/-- Claim C3: if `context_code` is non-empty and its execution raises, the
returned list is exactly one synthetic Outcome with assertion
`"[context setup]"`, status `"failed"`, score `0`, and no assertion string is
executed (the namespace shows only the context execution). -/
theorem run_assertions_context_failure {σ : Type} (E : PyExec σ)
    (ns ns' : σ) (assertions : List String) (question_name : Option String)
    (c : String) (e : PyErr)
    (hc : c ≠ "") (hE : E c ns = (ns', some e)) :
    run_assertions E ns assertions question_name (some c) =
      ([⟨questionLabel question_name, "[context setup]", "failed",
          some (format_context_error e), 0⟩], ns') := by
  simp [run_assertions, hc, hE]

/-- A concrete oracle used to witness the context-failure behaviour. -/
def ctxFailOracle : PyExec Nat := fun s n =>
  if s = "raise ValueError" then (n + 1, some (.general "ValueError" "boom"))
  else (n, none)

/-- Witness for claim C3 at a concrete input. -/
theorem run_assertions_context_failure_witness :
    ("raise ValueError" ≠ "" ∧
      ctxFailOracle "raise ValueError" 0 = (1, some (.general "ValueError" "boom"))) ∧
    run_assertions ctxFailOracle 0 ["assert x == 1"] (some "Q1")
        (some "raise ValueError") =
      ([⟨questionLabel (some "Q1"), "[context setup]", "failed",
          some (format_context_error (.general "ValueError" "boom")), 0⟩], 1) :=
  ⟨⟨by decide, rfl⟩,
    run_assertions_context_failure ctxFailOracle 0 1 ["assert x == 1"]
      (some "Q1") "raise ValueError" (.general "ValueError" "boom")
      (by decide) rfl⟩

/-- "context_code is absent or executes without exception": the three Python
cases (`None`, empty string — both falsy — or a successful execution), with
`ns0` the namespace visible after the context phase. -/
def contextOk {σ : Type} (E : PyExec σ) (ns : σ) :
    Option String → σ → Prop
  | none, ns0 => ns0 = ns
  | some c, ns0 => if c = "" then ns0 = ns else E c ns = (ns0, none)

/-- A placeholder Outcome used with `List.getD`. -/
def dummyOutcome : Outcome := ⟨"", "", "", none, 0⟩

theorem run_assertions_of_contextOk {σ : Type} (E : PyExec σ) (ns ns0 : σ)
    (assertions : List String) (question_name : Option String)
    (context_code : Option String)
    (h : contextOk E ns context_code ns0) :
    run_assertions E ns assertions question_name context_code =
      run_assertion_list E (questionLabel question_name) ns0 assertions := by
  match context_code with
  | none => simp only [contextOk] at h; subst h; rfl
  | some c =>
    by_cases hc : c = ""
    · simp only [contextOk, hc, if_pos rfl] at h
      subst h
      simp [run_assertions, hc]
    · simp only [contextOk, if_neg hc] at h
      simp [run_assertions, hc, h]

theorem run_assertion_list_length {σ : Type} (E : PyExec σ) (qn : String) :
    ∀ (codes : List String) (ns : σ),
      (run_assertion_list E qn ns codes).1.length = codes.length
  | [], _ => rfl
  | _ :: rest, ns => by
    simp [run_assertion_list, run_assertion_list_length E qn rest]

theorem run_assertion_list_getD {σ : Type} (E : PyExec σ) (qn : String) :
    ∀ (codes : List String) (ns : σ) (i : Nat), i < codes.length →
      (run_assertion_list E qn ns codes).1.getD i dummyOutcome =
        (let code := codes.getD i ""
         let st := execStates E ns (codes.take i)
         match (E code st).2 with
         | none => ⟨qn, code, "passed", none, 1⟩
         | some (.assertionError args) =>
             ⟨qn, code, "failed", some (format_assertion_error code args), 0⟩
         | some (.general k m) =>
             ⟨qn, code, "failed", some (format_general_error code k m), 0⟩)
  | [], _, i, hi => by simp at hi
  | code :: rest, ns, 0, _ => by
    simp [run_assertion_list, execStates]
  | code :: rest, ns, i + 1, hi => by
    have hi' : i < rest.length := by simpa using hi
    have ih := run_assertion_list_getD E qn rest (E code ns).1 i hi'
    simpa [run_assertion_list, execStates] using ih

/-- Claim C4: when the context is absent or runs cleanly, every assertion
string is executed, in source order, against the threaded namespace — a
failure never stops later assertions — and the i-th Outcome records the i-th
assertion with status `"passed"`/score 1 exactly when executing it raised no
exception, status `"failed"`/score 0 otherwise. -/
theorem run_assertions_runs_every_assertion {σ : Type} (E : PyExec σ)
    (ns ns0 : σ) (assertions : List String) (question_name : Option String)
    (context_code : Option String)
    (h : contextOk E ns context_code ns0) :
    (run_assertions E ns assertions question_name context_code).1.length =
        assertions.length ∧
    ∀ i, i < assertions.length →
      ((run_assertions E ns assertions question_name context_code).1.getD i
          dummyOutcome).assertion = assertions.getD i "" ∧
      (((run_assertions E ns assertions question_name context_code).1.getD i
            dummyOutcome).status = "passed" ∧
        ((run_assertions E ns assertions question_name context_code).1.getD i
            dummyOutcome).score = 1 ↔
        (E (assertions.getD i "") (execStates E ns0 (assertions.take i))).2 =
          none) ∧
      (((run_assertions E ns assertions question_name context_code).1.getD i
            dummyOutcome).status = "failed" ∧
        ((run_assertions E ns assertions question_name context_code).1.getD i
            dummyOutcome).score = 0 ↔
        (E (assertions.getD i "") (execStates E ns0 (assertions.take i))).2 ≠
          none) := by
  rw [run_assertions_of_contextOk E ns ns0 assertions question_name
    context_code h]
  refine ⟨run_assertion_list_length E _ assertions ns0, ?_⟩
  intro i hi
  rw [run_assertion_list_getD E _ assertions ns0 i hi]
  rcases hE : (E (assertions.getD i "") (execStates E ns0 (assertions.take i))).2
    with _ | e
  · simp only [hE]
    exact ⟨trivial, ⟨fun _ => trivial, fun _ => ⟨trivial, trivial⟩⟩,
      ⟨fun hp => absurd hp.2 (by decide), fun hn => absurd rfl hn⟩⟩
  · cases e with
    | assertionError args =>
      simp only [hE]
      exact ⟨trivial,
        ⟨fun hp => absurd hp.2 (by decide), fun hn => absurd hn (Option.some_ne_none _)⟩,
        ⟨fun _ => Option.some_ne_none _, fun _ => ⟨trivial, trivial⟩⟩⟩
    | general k m =>
      simp only [hE]
      exact ⟨trivial,
        ⟨fun hp => absurd hp.2 (by decide), fun hn => absurd hn (Option.some_ne_none _)⟩,
        ⟨fun _ => Option.some_ne_none _, fun _ => ⟨trivial, trivial⟩⟩⟩

/-- A concrete oracle: `"bad"` raises, everything else succeeds. -/
def mixedOracle : PyExec Nat := fun s n =>
  if s = "bad" then (n + 1, some (.assertionError []))
  else (n + 2, none)

/-- Witness for claim C4 at a concrete input: two assertions where the first
fails yet the second still runs and passes. -/
theorem run_assertions_runs_every_assertion_witness :
    contextOk mixedOracle 5 (some "") 5 ∧
    (run_assertions mixedOracle 5 ["bad", "good"] none (some "")).1.length =
      2 ∧
    ((run_assertions mixedOracle 5 ["bad", "good"] none
        (some "")).1.getD 0 dummyOutcome).status = "failed" ∧
    ((run_assertions mixedOracle 5 ["bad", "good"] none
        (some "")).1.getD 1 dummyOutcome).status = "passed" := by
  have h := run_assertions_runs_every_assertion mixedOracle 5 5 ["bad", "good"]
    none (some "") (by simp [contextOk])
  refine ⟨by simp [contextOk], h.1, ?_, ?_⟩
  · exact ((h.2 0 (by decide)).2.2.mpr (by decide)).1
  · exact ((h.2 1 (by decide)).2.1.mpr (by decide)).1

/-- Refinement of the spec's frame condition for C10: the namespace the caller
sees after `run_assertions` returns — cumulative in-place mutation by the
context (even a failing one) and then by every assertion, starting from the
caller's own dictionary, never a copy. -/
def caller_namespace_after {σ : Type} (E : PyExec σ) (ns : σ)
    (assertions : List String) : Option String → σ
  | none => execStates E ns assertions
  | some c =>
    if c = "" then execStates E ns assertions
    else
      let step := E c ns
      match step.2 with
      | some _ => step.1
      | none => execStates E step.1 assertions

theorem run_assertion_list_namespace {σ : Type} (E : PyExec σ) (qn : String) :
    ∀ (codes : List String) (ns : σ),
      (run_assertion_list E qn ns codes).2 = execStates E ns codes
  | [], _ => rfl
  | code :: rest, ns => by
    simp [run_assertion_list, execStates,
      run_assertion_list_namespace E qn rest (E code ns).1]

/-- Claim C10: `run_assertions` operates directly on the caller-supplied
namespace; every binding created or mutated by the context code or by any
assertion remains visible to the caller afterwards. -/
theorem run_assertions_mutates_in_place {σ : Type} (E : PyExec σ) (ns : σ)
    (assertions : List String) (question_name : Option String)
    (context_code : Option String) :
    (run_assertions E ns assertions question_name context_code).2 =
      caller_namespace_after E ns assertions context_code := by
  match context_code with
  | none =>
    simp [run_assertions, caller_namespace_after,
      run_assertion_list_namespace]
  | some c =>
    by_cases hc : c = ""
    · simp [run_assertions, caller_namespace_after, hc,
        run_assertion_list_namespace]
    · rcases hE : (E c ns).2 with _ | e <;>
        simp [run_assertions, caller_namespace_after, hc, hE,
          run_assertion_list_namespace]

/-! ## execution/notebook_executor.py -/

/-- One notebook cell: its type tag (`"markdown"` / `"code"`) and raw source. -/
structure Cell where
  cell_type : String
  source : String
deriving DecidableEq, Repr

/-- Execution oracle for the notebook executor: `exec(src, namespace)` over an
association-list namespace, reporting a failure as `str(e)`. -/
def NbExec (α : Type) : Type :=
  String → List (String × α) → List (String × α) × Option String

/-- The cell loop of `NotebookExecutor.run_notebook` (step 3): skip non-code
and blank cells, run each remaining cell against the threaded namespace, and
on an exception append `"In cell: <first 80 chars> -> <message>"` to the
diagnostics and keep going. -/
def run_cells {α : Type} (E : NbExec α) :
    List (String × α) → List String → List Cell →
      List (String × α) × List String
  | ns, errors, [] => (ns, errors)
  | ns, errors, cell :: rest =>
    if cell.cell_type ≠ "code" then run_cells E ns errors rest
    else if pyStrip cell.source = "" then run_cells E ns errors rest
    else
      let step := E cell.source ns
      match step.2 with
      | none => run_cells E step.1 errors rest
      | some msg =>
          run_cells E step.1
            (errors ++
              ["In cell: " ++ pyTake cell.source 80 ++ " -> " ++ msg])
            rest

/-- The dictionary returned by `run_notebook` (`namespace` is a Lean keyword,
so that key is embedded as the field `ns`). -/
structure NotebookResult (α : Type) where
  ns : List (String × α)
  errors : List String
  success : Bool
deriving DecidableEq, Repr

/-- `NotebookExecutor.run_notebook` from the cell loop on: `init_errors` and
`init_ns` carry whatever steps 1–2 produced (the pre-seeded `input` stub and
any `NotebookClient` diagnostics, both external); reserved `__`-prefixed
entries are filtered out and `success` is `errors == []`. -/
def run_notebook {α : Type} (E : NbExec α) (init_errors : List String)
    (init_ns : List (String × α)) (cells : List Cell) : NotebookResult α :=
  let r := run_cells E init_ns init_errors cells
  { ns := r.1.filter (fun kv => !(pyStartsWith kv.1 "__")),
    errors := r.2,
    success := r.2.isEmpty }

/-- Claim C7: a raising code cell contributes one diagnostic holding the first
80 characters of its source and execution continues with the next cell; the
returned namespace is the final namespace with `__`-prefixed entries removed;
and the success flag holds exactly when the diagnostics list is empty. -/
theorem run_notebook_partial_failure {α : Type} (E : NbExec α)
    (init_errors : List String) (init_ns : List (String × α))
    (cells : List Cell) (cell : Cell) (rest : List Cell)
    (ns ns' : List (String × α)) (errors : List String) (msg : String)
    (hcode : cell.cell_type = "code") (hsrc : pyStrip cell.source ≠ "")
    (hE : E cell.source ns = (ns', some msg)) :
    run_cells E ns errors (cell :: rest) =
      run_cells E ns'
        (errors ++ ["In cell: " ++ pyTake cell.source 80 ++ " -> " ++ msg])
        rest ∧
    (run_notebook E init_errors init_ns cells).ns =
      (run_cells E init_ns init_errors cells).1.filter
        (fun kv => !(pyStartsWith kv.1 "__")) ∧
    ((run_notebook E init_errors init_ns cells).success = true ↔
      (run_notebook E init_errors init_ns cells).errors = []) := by
  refine ⟨?_, rfl, ?_⟩
  · simp [run_cells, hcode, hsrc, hE]
  · simp [run_notebook, List.isEmpty_iff]

/-- A concrete single-value namespace oracle: the cell `"boom"` raises,
anything else defines `x`. -/
def nbOracle : NbExec Nat := fun s ns =>
  if s = "boom" then (ns, some "ZeroDivisionError: division by zero")
  else (ns ++ [("x", 1)], none)

/-- Witness for claim C7 at a concrete input. -/
theorem run_notebook_partial_failure_witness :
    ((⟨"code", "boom"⟩ : Cell).cell_type = "code" ∧
      pyStrip (⟨"code", "boom"⟩ : Cell).source ≠ "" ∧
      nbOracle "boom" [("__builtins__", 0)] =
        ([("__builtins__", 0)], some "ZeroDivisionError: division by zero")) ∧
    (run_cells nbOracle [("__builtins__", 0)] [] [⟨"code", "boom"⟩, ⟨"code", "x = 1"⟩] =
      run_cells nbOracle [("__builtins__", 0)]
        (["In cell: " ++ pyTake "boom" 80 ++
          " -> ZeroDivisionError: division by zero"])
        [⟨"code", "x = 1"⟩] ∧
    (run_notebook nbOracle [] [("__builtins__", 0)]
        [⟨"code", "boom"⟩, ⟨"code", "x = 1"⟩]).ns =
      (run_cells nbOracle [("__builtins__", 0)] []
          [⟨"code", "boom"⟩, ⟨"code", "x = 1"⟩]).1.filter
        (fun kv => !(pyStartsWith kv.1 "__")) ∧
    ((run_notebook nbOracle [] [("__builtins__", 0)]
        [⟨"code", "boom"⟩, ⟨"code", "x = 1"⟩]).success = true ↔
      (run_notebook nbOracle [] [("__builtins__", 0)]
        [⟨"code", "boom"⟩, ⟨"code", "x = 1"⟩]).errors = [])) := by
  refine ⟨⟨rfl, by decide, rfl⟩, ?_⟩
  have h := run_notebook_partial_failure nbOracle []
    [("__builtins__", 0)] [⟨"code", "boom"⟩, ⟨"code", "x = 1"⟩]
    (⟨"code", "boom"⟩ : Cell) [⟨"code", "x = 1"⟩]
    [("__builtins__", 0)] [("__builtins__", 0)] []
    "ZeroDivisionError: division by zero" rfl (by decide) rfl
  exact h

/-! ## ingestion/solution_ingestion.py — data model (shared with the
execution service) -/

/-- The per-question dictionary stored in `questions[func_name]`. -/
structure QuestionSpec where
  description : String
  function : String
  context_code : String
  tests : List String
deriving DecidableEq, Repr

/-! ## execution/execution_service.py -/

/-- The notebook-executor oracle induced by a comparison-engine oracle: the
same `exec`, with a failure reported as `str(e)`. -/
def pyErrMsgOracle {α : Type} (E : PyExec (List (String × α))) : NbExec α :=
  fun s ns =>
    let r := E s ns
    (r.1, r.2.map PyErr.msg)

/-- The report dictionary returned by `ExecutionService.execute_notebook`. -/
structure EvalReport (α : Type) where
  execution : NotebookResult α
  results : List Outcome
deriving Repr

/-- `ExecutionService.execute_notebook`: run the student notebook, then call
`run_assertions` on the returned namespace with
`sum([v["tests"] for v in solution["questions"].values()], start=[])`
as the assertion list — no `question_name`, no `context_code`. -/
def execute_notebook {α : Type} (E : PyExec (List (String × α)))
    (init_errors : List String) (init_ns : List (String × α))
    (student_cells : List Cell) (questions : List (String × QuestionSpec)) :
    EvalReport α :=
  let student_execution := run_notebook (pyErrMsgOracle E) init_errors
    init_ns student_cells
  let results := run_assertions E student_execution.ns
    ((questions.map (fun q => q.2.tests)).flatten) none none
  ⟨student_execution, results.1⟩

theorem run_assertion_list_question {σ : Type} (E : PyExec σ) (qn : String) :
    ∀ (codes : List String) (ns : σ),
      ((run_assertion_list E qn ns codes).1.all
        (fun oc => oc.question == qn)) = true
  | [], _ => rfl
  | code :: rest, ns => by
    have ih := run_assertion_list_question E qn rest (E code ns).1
    rcases hE : (E code ns).2 with _ | e
    · simpa [run_assertion_list, hE] using ih
    · cases e <;> simpa [run_assertion_list, hE] using ih

/-- Claim C9: `execute_notebook` flattens every question's assertion list
into one list, runs it with no question name and no context code — so the
plain assertion loop runs directly on the student namespace (no context is
ever executed) and every Outcome's question field is `"unknown"`. -/
theorem execute_notebook_flat_and_unknown {α : Type}
    (E : PyExec (List (String × α))) (init_errors : List String)
    (init_ns : List (String × α)) (student_cells : List Cell)
    (questions : List (String × QuestionSpec)) :
    (execute_notebook E init_errors init_ns student_cells questions).results =
      (run_assertion_list E "unknown"
        (run_notebook (pyErrMsgOracle E) init_errors init_ns student_cells).ns
        ((questions.map (fun q => q.2.tests)).flatten)).1 ∧
    ((execute_notebook E init_errors init_ns student_cells
        questions).results.all (fun oc => oc.question == "unknown")) = true := by
  constructor
  · rfl
  · exact run_assertion_list_question E "unknown" _ _

/-! ## ingestion/solution_ingestion.py — `understand_notebook_solution`

The notebook walk is embedded on the cell list.  The `ast`-based helper
`_extract_function_name` parses Python source, which is external to this
model: it is an oracle `X : String → Option String` (the name of the first
function definition in the cell, if any).  The metadata branch of the source
only writes the separate `metadata` dictionary and advances the index by one
cell, exactly as any other non-heading cell does, so the `questions` result
embedded here is unaffected by it. -/

/-- `cell.source.strip().split("\n", 1)[-1]`: everything after the first
newline (the whole string when it has none). -/
def split_first_nl (s : String) : String :=
  match s.data.dropWhile (fun c => c ≠ '\n') with
  | [] => s
  | _ :: rest => String.mk rest

/-- `description = cell.source.strip().split("\n", 1)[-1].strip()`. -/
def question_description (s : String) : String :=
  pyStrip (split_first_nl (pyStrip s))

/-- Step 2 of the walk: the cell after the heading, when present and of code
type, yields `func_src = source.strip()` and `func_name` from the parse
oracle (`if func_name:` makes an empty name falsy). -/
def function_cell_info (X : String → Option String) :
    Option Cell → Option String × String
  | some c =>
    if c.cell_type = "code" then
      let func_src := pyStrip c.source
      let func_name :=
        match X func_src with
        | some n => if n = "" then none else some n
        | none => none
      (func_name, func_src)
    else (none, "")
  | none => (none, "")

/-- The body of the `for line in assert_cell_src.splitlines()` loop:
a stripped line starting with `"assert "` is appended to the assertion list,
any other line (in original, unstripped form) to the setup list. -/
def assert_line_step (acc : List String × List String) (line : String) :
    List String × List String :=
  let stripped := pyStrip line
  if pyStartsWith stripped "assert " then (acc.1 ++ [stripped], acc.2)
  else (acc.1, acc.2 ++ [line])

/-- Splits an assertion cell's source into `(assert_lines, setup_lines)`. -/
def split_assert_cell (src : String) : List String × List String :=
  (pySplitlines src).foldl assert_line_step ([], [])

/-- Step 3 plus the emission decision for one heading: `None` when no valid
function cell follows; otherwise the `QuestionSpec`, whose tests and context
come from the assertion cell when it exists and is code, and are empty
otherwise. -/
def heading_question (X : String → Option String) (cell : Cell)
    (rest : List Cell) : Option (String × QuestionSpec) :=
  let description := question_description cell.source
  let fi := function_cell_info X rest.head?
  match fi.1 with
  | none => none
  | some n =>
    let parts :=
      match (rest.drop 1).head? with
      | some test_cell =>
        if test_cell.cell_type = "code" then
          let s := split_assert_cell test_cell.source
          (s.1, String.intercalate "\n" s.2)
        else ([], "")
      | none => ([], "")
    some (n, ⟨description, fi.2, parts.2, parts.1⟩)

/-- `questions[func_name] = {...}` on an `OrderedDict`: replace in place when
the key exists, append otherwise. -/
def odict_set (qs : List (String × QuestionSpec)) (k : String)
    (v : QuestionSpec) : List (String × QuestionSpec) :=
  if qs.any (fun p => p.1 == k) then
    qs.map (fun p => if p.1 = k then (k, v) else p)
  else qs ++ [(k, v)]

/-- The `while i < len(nb.cells)` walk: a heading cell processes the two
cells after it and always advances by three (`i += 3`); every other cell
advances by one. -/
def understand_notebook_questions (X : String → Option String) :
    List (String × QuestionSpec) → List Cell → List (String × QuestionSpec)
  | qs, [] => qs
  | qs, cell :: rest =>
    if cell.cell_type = "markdown" ∧
        pyStartsWith (pyStrip cell.source) "##" = true then
      let qs' :=
        match heading_question X cell rest with
        | some (n, spec) => odict_set qs n spec
        | none => qs
      match rest with
      | [] => qs'
      | [_] => qs'
      | _ :: _ :: rest2 => understand_notebook_questions X qs' rest2
    else
      understand_notebook_questions X qs rest

/-- The `questions` component of
`SolutionIngestion.understand_notebook_solution`. -/
def understand_notebook_solution (X : String → Option String)
    (cells : List Cell) : List (String × QuestionSpec) :=
  understand_notebook_questions X [] cells

/-- A concrete parse oracle recognising the single cell `"def f(): pass"`. -/
def extractNameSample : String → Option String :=
  fun s => if s = "def f(): pass" then some "f" else none

/-- Counterexample to claim C5 as stated: a heading followed by a valid
function cell but with the assertion cell missing — the claim says no
QuestionSpec is emitted for that heading, yet the extractor still emits one
(with empty tests and empty context). -/
theorem missing_assert_cell_still_emits :
    understand_notebook_solution extractNameSample
      [⟨"markdown", "## Q1\ndesc"⟩, ⟨"code", "def f(): pass"⟩] =
    [("f", ⟨"desc", "def f(): pass", "", []⟩)] := by decide

/-- Claim C5 (amended): on a heading cell the extractor always continues
from three cells later regardless of the triplet matching; when the function
cell is missing, of the wrong type, or yields no function name, no
QuestionSpec is emitted for that heading; when the function cell is valid but
the assertion cell is missing or of the wrong type, a QuestionSpec is still
emitted, with empty tests and empty context code. -/
theorem heading_stride_and_emission (X : String → Option String)
    (cell : Cell) (rest : List Cell)
    (h1 : cell.cell_type = "markdown")
    (h2 : pyStartsWith (pyStrip cell.source) "##" = true) :
    (∀ qs, understand_notebook_questions X qs (cell :: rest) =
      understand_notebook_questions X
        (match heading_question X cell rest with
         | some (n, spec) => odict_set qs n spec
         | none => qs)
        (rest.drop 2)) ∧
    ((function_cell_info X rest.head?).1 = none →
      heading_question X cell rest = none) ∧
    (∀ n, (function_cell_info X rest.head?).1 = some n →
      ((rest.drop 1).head? = none ∨
        ∃ t, (rest.drop 1).head? = some t ∧ t.cell_type ≠ "code") →
      heading_question X cell rest =
        some (n, ⟨question_description cell.source,
          (function_cell_info X rest.head?).2, "", []⟩)) := by
  refine ⟨?_, ?_, ?_⟩
  · intro qs
    match rest with
    | [] => simp [understand_notebook_questions, h1, h2]
    | [c] => simp [understand_notebook_questions, h1, h2]
    | a :: b :: rest2 => simp [understand_notebook_questions, h1, h2]
  · intro hfn
    simp [heading_question, hfn]
  · intro n hfn hassert
    rcases hassert with hnone | ⟨t, ht, htype⟩
    · simp only [List.head?_drop] at hnone
      simp [heading_question, hfn, hnone]
    · simp only [List.head?_drop] at ht
      simp [heading_question, hfn, ht, htype]

/-- Witness for the amended claim C5 at a concrete input: a heading with a
valid function cell and no assertion cell. -/
theorem heading_stride_and_emission_witness :
    ((⟨"markdown", "## Q1\ndesc"⟩ : Cell).cell_type = "markdown" ∧
      pyStartsWith (pyStrip (⟨"markdown", "## Q1\ndesc"⟩ : Cell).source) "##" =
        true) ∧
    understand_notebook_questions extractNameSample []
        (⟨"markdown", "## Q1\ndesc"⟩ :: [⟨"code", "def f(): pass"⟩]) =
      understand_notebook_questions extractNameSample
        (match heading_question extractNameSample ⟨"markdown", "## Q1\ndesc"⟩
            [⟨"code", "def f(): pass"⟩] with
         | some (n, spec) => odict_set [] n spec
         | none => [])
        (([⟨"code", "def f(): pass"⟩] : List Cell).drop 2) ∧
    heading_question extractNameSample ⟨"markdown", "## Q1\ndesc"⟩
        [⟨"code", "def f(): pass"⟩] =
      some ("f", ⟨question_description "## Q1\ndesc",
        (function_cell_info extractNameSample
          ([⟨"code", "def f(): pass"⟩] : List Cell).head?).2, "", []⟩) := by
  have h := heading_stride_and_emission extractNameSample
    ⟨"markdown", "## Q1\ndesc"⟩ [⟨"code", "def f(): pass"⟩] rfl (by decide)
  exact ⟨⟨rfl, by decide⟩, h.1 [], h.2.2 "f" (by decide) (Or.inl rfl)⟩

theorem foldl_assert_line_step (lines : List String) :
    ∀ acc, lines.foldl assert_line_step acc =
      (acc.1 ++ lines.filterMap
        (fun line =>
          if pyStartsWith (pyStrip line) "assert " then some (pyStrip line)
          else none),
       acc.2 ++ lines.filter
        (fun line => !(pyStartsWith (pyStrip line) "assert "))) := by
  induction lines with
  | nil => intro acc; simp
  | cons l ls ih =>
    intro acc
    by_cases hl : pyStartsWith (pyStrip l) "assert " = true
    · simp [assert_line_step, hl, ih, List.filterMap_cons, List.filter_cons]
    · simp only [Bool.not_eq_true] at hl
      simp [assert_line_step, hl, ih, List.filterMap_cons, List.filter_cons]

/-- Claim C6: for a matched triplet, a line of the assertion cell is recorded
as an assertion (in stripped form) iff its stripped text begins with
`"assert "`, and every other line is joined, in original order, into the
question's context code. -/
theorem assert_cell_line_classification (X : String → Option String)
    (cell fcell tcell : Cell) (more : List Cell)
    (qs : List (String × QuestionSpec)) (n : String)
    (h1 : cell.cell_type = "markdown")
    (h2 : pyStartsWith (pyStrip cell.source) "##" = true)
    (h4 : (function_cell_info X (some fcell)).1 = some n)
    (h5 : tcell.cell_type = "code") :
    understand_notebook_questions X qs (cell :: fcell :: tcell :: more) =
      understand_notebook_questions X
        (odict_set qs n
          ⟨question_description cell.source, pyStrip fcell.source,
            String.intercalate "\n"
              ((pySplitlines tcell.source).filter
                (fun line => !(pyStartsWith (pyStrip line) "assert "))),
            (pySplitlines tcell.source).filterMap
              (fun line =>
                if pyStartsWith (pyStrip line) "assert " then
                  some (pyStrip line)
                else none)⟩)
        more := by
  have hcode : fcell.cell_type = "code" := by
    by_contra hne
    simp [function_cell_info, hne] at h4
  have hsplit : split_assert_cell tcell.source =
      ((pySplitlines tcell.source).filterMap
        (fun line =>
          if pyStartsWith (pyStrip line) "assert " then some (pyStrip line)
          else none),
       (pySplitlines tcell.source).filter
        (fun line => !(pyStartsWith (pyStrip line) "assert "))) := by
    simpa [split_assert_cell] using
      foldl_assert_line_step (pySplitlines tcell.source) ([], [])
  have hfi : (function_cell_info X (some fcell)).2 = pyStrip fcell.source := by
    simp [function_cell_info, hcode]
  simp [understand_notebook_questions, h1, h2, heading_question, h4, h5,
    hsplit, hfi]

/-- A parse oracle for the C6 witness cell. -/
def extractNameSample2 : String → Option String :=
  fun s => if s = "def g(x):\n    return x + 1" then some "g" else none

/-- Witness for claim C6 at a concrete triplet: the assertion cell mixes
setup lines and assert lines (one of them indented). -/
theorem assert_cell_line_classification_witness :
    ((⟨"markdown", "## Q2\nadds one"⟩ : Cell).cell_type = "markdown" ∧
      pyStartsWith (pyStrip (⟨"markdown", "## Q2\nadds one"⟩ : Cell).source)
          "##" = true ∧
      (function_cell_info extractNameSample2
        (some ⟨"code", "def g(x):\n    return x + 1"⟩)).1 = some "g" ∧
      (⟨"code", "x = 1\nassert g(x) == 2\n  assert g(0) == 1\nprint(x)"⟩ :
          Cell).cell_type = "code") ∧
    understand_notebook_questions extractNameSample2 []
        [⟨"markdown", "## Q2\nadds one"⟩,
          ⟨"code", "def g(x):\n    return x + 1"⟩,
          ⟨"code", "x = 1\nassert g(x) == 2\n  assert g(0) == 1\nprint(x)"⟩] =
      understand_notebook_questions extractNameSample2
        (odict_set [] "g"
          ⟨question_description "## Q2\nadds one",
            pyStrip "def g(x):\n    return x + 1",
            String.intercalate "\n"
              ((pySplitlines
                  "x = 1\nassert g(x) == 2\n  assert g(0) == 1\nprint(x)").filter
                (fun line => !(pyStartsWith (pyStrip line) "assert "))),
            (pySplitlines
                "x = 1\nassert g(x) == 2\n  assert g(0) == 1\nprint(x)").filterMap
              (fun line =>
                if pyStartsWith (pyStrip line) "assert " then
                  some (pyStrip line)
                else none)⟩)
        [] := by
  refine ⟨⟨rfl, by decide, by decide, rfl⟩, ?_⟩
  exact assert_cell_line_classification extractNameSample2
    ⟨"markdown", "## Q2\nadds one"⟩
    ⟨"code", "def g(x):\n    return x + 1"⟩
    ⟨"code", "x = 1\nassert g(x) == 2\n  assert g(0) == 1\nprint(x)"⟩
    [] [] "g" rfl (by decide) (by decide) rfl

/-! ## reporting/reporting_service.py — `ReportingService.dataframe`

An attempt is identified by the composite pandas group key
`(file, student, roll_number)`, embedded as one `String`; scores are `ℚ`
(the code coerces them with `fillna(0).astype(float)`).  pandas'
multi-column `sort_values` is a stable lexicographic sort and
`groupby(sort=True)` orders groups by their key; both are embedded with the
stable insertion sort `stableSort` below.  `groupby(...).head(n)` keeps the
first `n` rows of each group in frame order, i.e. for a key `k` exactly
`(frame.filter (key = k)).take n`. -/

/-- Insert `a` into a sorted list, before the first element `b` with
`le a b` — so an element inserted later never overtakes an equal one. -/
def insertSorted {α : Type} (le : α → α → Bool) (a : α) : List α → List α
  | [] => [a]
  | b :: l => if le a b then a :: b :: l else b :: insertSorted le a l

/-- A stable insertion sort. -/
def stableSort {α : Type} (le : α → α → Bool) : List α → List α
  | [] => []
  | a :: l => insertSorted le a (stableSort le l)

/-- First occurrences, with an accumulator of already-seen elements. -/
def firstOccsAux {α : Type} [DecidableEq α] : List α → List α → List α
  | _, [] => []
  | seen, a :: rest =>
    if a ∈ seen then firstOccsAux seen rest
    else a :: firstOccsAux (a :: seen) rest

/-- The distinct elements of a list, in order of first occurrence. -/
def firstOccs {α : Type} [DecidableEq α] (l : List α) : List α :=
  firstOccsAux [] l

/-- Flattening `executed_results` into the result rows of the DataFrame:
each attempt (key, per-assertion rows) contributes one
`(key, question, score)` row per assertion result. -/
def result_rows (executed_results : List (String × List (String × ℚ))) :
    List (String × String × ℚ) :=
  executed_results.flatMap
    (fun item => item.2.map (fun r => (item.1, r.1, r.2)))

/-- `groupby([...key..., "question"])`'s key order: attempt key, then
question name. -/
def groupKeyLE (p q : String × String) : Bool :=
  decide (p.1 < q.1 ∨ (p.1 = q.1 ∧ p.2 ≤ q.2))

/-- `sort_values([...key..., "q_score"], ascending=[.., True, False])`:
attempt key ascending, then `q_score` descending. -/
def qScoreLE (a b : (String × String) × ℚ) : Bool :=
  decide (a.1.1 < b.1.1 ∨ (a.1.1 = b.1.1 ∧ b.2 ≤ a.2))

/-- `q_totals`: one row per `(key, question)` group — in sorted group-key
order, as `groupby(sort=True)` produces — holding the summed score. -/
def q_totals (rows : List (String × String × ℚ)) :
    List ((String × String) × ℚ) :=
  (stableSort groupKeyLE (firstOccs (rows.map (fun r => (r.1, r.2.1))))).map
    (fun p =>
      (p, ((rows.filter (fun r => decide ((r.1, r.2.1) = p))).map
        (fun r => r.2.2)).sum))

/-- `q_totals_sorted`. -/
def q_totals_sorted (rows : List (String × String × ℚ)) :
    List ((String × String) × ℚ) :=
  stableSort qScoreLE (q_totals rows)

/-- `best_n_total` of the attempt `k`: take the first `best_n` of the
attempt's rows of the sorted frame and sum their `q_score`. -/
def best_n_total (n : Nat) (rows : List (String × String × ℚ)) (k : String) :
    ℚ :=
  ((((q_totals_sorted rows).filter (fun e => decide (e.1.1 = k))).take n).map
    (fun e => e.2)).sum

/-- The attempt keys, as `groupby(sort=False)` enumerates them. -/
def attempt_keys (rows : List (String × String × ℚ)) : List String :=
  firstOccs ((q_totals_sorted rows).map (fun e => e.1.1))

/-- Minimum of a score column (`0` on an empty frame, as in the code). -/
def listMin : List ℚ → ℚ
  | [] => 0
  | x :: xs => xs.foldl min x

/-- Maximum of a score column (`0` on an empty frame, as in the code). -/
def listMax : List ℚ → ℚ
  | [] => 0
  | x :: xs => xs.foldl max x

/-- The `best_n_total` column of `best_n_attempt`. -/
def bn_list (n : Nat) (rows : List (String × String × ℚ)) : List ℚ :=
  (attempt_keys rows).map (fun k => best_n_total n rows k)

/-- `min_raw`. -/
def min_raw (n : Nat) (rows : List (String × String × ℚ)) : ℚ :=
  listMin (bn_list n rows)

/-- `max_raw`. -/
def max_raw (n : Nat) (rows : List (String × String × ℚ)) : ℚ :=
  listMax (bn_list n rows)

/-- The `scaled` column: `scaled_min` for everyone when `min_raw == max_raw`,
the linear rescaling formula otherwise. -/
def scaled (n : Nat) (smin smax : ℚ) (rows : List (String × String × ℚ))
    (k : String) : ℚ :=
  if min_raw n rows = max_raw n rows then smin
  else
    smin + (best_n_total n rows k - min_raw n rows) * (smax - smin) /
      (max_raw n rows - min_raw n rows)

/-- The attempt-level frame `best_n_attempt` (saved as `attempt_scores_df`
and merged back into the main DataFrame): one row
`(key, best_n_total, scaled)` per attempt. -/
def attempt_scores (n : Nat) (smin smax : ℚ)
    (executed_results : List (String × List (String × ℚ))) :
    List (String × ℚ × ℚ) :=
  let rows := result_rows executed_results
  (attempt_keys rows).map
    (fun k => (k, best_n_total n rows k, scaled n smin smax rows k))

/-! Spec-side definitions for claim C1, following the spec's words: list the
attempt's per-question totals in first-seen question order, sort them by
total descending with ties keeping that order (`stableSort` is stable), take
the top `best_n`, and sum. -/

/-- The rows of one attempt. -/
def rows_of (rows : List (String × String × ℚ)) (k : String) :
    List (String × String × ℚ) :=
  rows.filter (fun r => decide (r.1 = k))

/-- The attempt's question names in first-seen order. -/
def spec_question_order (rows : List (String × String × ℚ)) (k : String) :
    List String :=
  firstOccs ((rows_of rows k).map (fun r => r.2.1))

/-- The total score of question `q` in attempt `k`. -/
def q_total (rows : List (String × String × ℚ)) (k q : String) : ℚ :=
  ((rows.filter (fun r => decide (r.1 = k ∧ r.2.1 = q))).map
    (fun r => r.2.2)).sum

/-- The attempt's per-question totals in first-seen question order. -/
def spec_totals (rows : List (String × String × ℚ)) (k : String) :
    List (String × ℚ) :=
  (spec_question_order rows k).map (fun q => (q, q_total rows k q))

/-- Total descending. -/
def descByTotal (a b : String × ℚ) : Bool := decide (b.2 ≤ a.2)

/-- The spec's `best_n_total`: sum of the `n` highest per-question totals,
ties broken by first-seen question order. -/
def spec_best_n_total (n : Nat) (rows : List (String × String × ℚ))
    (k : String) : ℚ :=
  (((stableSort descByTotal (spec_totals rows k)).take n).map
    (fun e => e.2)).sum

theorem insertSorted_perm {α : Type} (le : α → α → Bool) (a : α) :
    ∀ l : List α, (insertSorted le a l).Perm (a :: l) := by
  intro l
  induction l with
  | nil => exact List.Perm.refl _
  | cons b l ih =>
    by_cases h : le a b
    · simp [insertSorted, h]
    · simp only [insertSorted, h, if_false, Bool.false_eq_true]
      exact (ih.cons b).trans (List.Perm.swap a b l)

theorem stableSort_perm {α : Type} (le : α → α → Bool) :
    ∀ l : List α, (stableSort le l).Perm l := by
  intro l
  induction l with
  | nil => exact List.Perm.refl _
  | cons a l ih =>
    exact (insertSorted_perm le a (stableSort le l)).trans (ih.cons a)

theorem pairwise_insertSorted {α : Type} (le : α → α → Bool)
    (htot : ∀ a b, le a b = true ∨ le b a = true)
    (htrans : ∀ a b c, le a b = true → le b c = true → le a c = true)
    (a : α) :
    ∀ l : List α, l.Pairwise (fun x y => le x y = true) →
      (insertSorted le a l).Pairwise (fun x y => le x y = true) := by
  intro l
  induction l with
  | nil => intro _; simp [insertSorted]
  | cons b l ih =>
    intro h
    rcases List.pairwise_cons.mp h with ⟨hb, hl⟩
    by_cases hab : le a b = true
    · simp only [insertSorted, if_pos hab]
      refine List.pairwise_cons.mpr ⟨?_, h⟩
      intro x hx
      rcases List.mem_cons.mp hx with rfl | hx
      · exact hab
      · exact htrans a b x hab (hb x hx)
    · simp only [insertSorted, hab, if_false, Bool.false_eq_true]
      refine List.pairwise_cons.mpr ⟨?_, ih hl⟩
      intro x hx
      rcases List.mem_cons.mp ((insertSorted_perm le a l).mem_iff.mp hx) with
        rfl | hx
      · rcases htot x b with h' | h'
        · exact absurd h' hab
        · exact h'
      · exact hb x hx

theorem pairwise_stableSort {α : Type} (le : α → α → Bool)
    (htot : ∀ a b, le a b = true ∨ le b a = true)
    (htrans : ∀ a b c, le a b = true → le b c = true → le a c = true) :
    ∀ l : List α, (stableSort le l).Pairwise (fun x y => le x y = true) := by
  intro l
  induction l with
  | nil => simp [stableSort]
  | cons a l ih => exact pairwise_insertSorted le htot htrans a _ ih

theorem mem_firstOccsAux {α : Type} [DecidableEq α] (x : α) :
    ∀ (l seen : List α), x ∈ firstOccsAux seen l ↔ x ∈ l ∧ x ∉ seen := by
  intro l
  induction l with
  | nil => intro seen; simp [firstOccsAux]
  | cons a rest ih =>
    intro seen
    by_cases ha : a ∈ seen
    · rw [firstOccsAux, if_pos ha, ih seen]
      constructor
      · exact fun ⟨hx, hs⟩ => ⟨List.mem_cons_of_mem a hx, hs⟩
      · rintro ⟨hx, hs⟩
        rcases List.mem_cons.mp hx with rfl | hx
        · exact absurd ha hs
        · exact ⟨hx, hs⟩
    · rw [firstOccsAux, if_neg ha]
      constructor
      · intro hx
        rcases List.mem_cons.mp hx with rfl | hx
        · exact ⟨List.mem_cons_self x rest, ha⟩
        · rcases (ih (a :: seen)).mp hx with ⟨h1, h2⟩
          exact ⟨List.mem_cons_of_mem a h1,
            fun hs => h2 (List.mem_cons_of_mem a hs)⟩
      · rintro ⟨hx, hs⟩
        rcases List.mem_cons.mp hx with rfl | hx
        · exact List.mem_cons_self x _
        · by_cases hxa : x = a
          · subst hxa; exact List.mem_cons_self x _
          · exact List.mem_cons_of_mem a ((ih (a :: seen)).mpr
              ⟨hx, fun h => by
                rcases List.mem_cons.mp h with h' | h'
                · exact hxa h'
                · exact hs h'⟩)

theorem nodup_firstOccsAux {α : Type} [DecidableEq α] :
    ∀ (l seen : List α), (firstOccsAux seen l).Nodup := by
  intro l
  induction l with
  | nil => intro seen; simp [firstOccsAux]
  | cons a rest ih =>
    intro seen
    by_cases ha : a ∈ seen
    · rw [firstOccsAux, if_pos ha]; exact ih seen
    · rw [firstOccsAux, if_neg ha]
      refine List.nodup_cons.mpr ⟨?_, ih (a :: seen)⟩
      intro hmem
      exact ((mem_firstOccsAux a rest (a :: seen)).mp hmem).2
        (List.mem_cons_self a seen)

theorem mem_firstOccs {α : Type} [DecidableEq α] (x : α) (l : List α) :
    x ∈ firstOccs l ↔ x ∈ l := by
  simp [firstOccs, mem_firstOccsAux]

theorem nodup_firstOccs {α : Type} [DecidableEq α] (l : List α) :
    (firstOccs l).Nodup :=
  nodup_firstOccsAux l []

theorem qScoreLE_total (a b : (String × String) × ℚ) :
    qScoreLE a b = true ∨ qScoreLE b a = true := by
  simp only [qScoreLE, decide_eq_true_eq]
  rcases lt_trichotomy a.1.1 b.1.1 with h | h | h
  · exact Or.inl (Or.inl h)
  · rcases le_total b.2 a.2 with h2 | h2
    · exact Or.inl (Or.inr ⟨h, h2⟩)
    · exact Or.inr (Or.inr ⟨h.symm, h2⟩)
  · exact Or.inr (Or.inl h)

theorem qScoreLE_trans (a b c : (String × String) × ℚ)
    (hab : qScoreLE a b = true) (hbc : qScoreLE b c = true) :
    qScoreLE a c = true := by
  simp only [qScoreLE, decide_eq_true_eq] at hab hbc ⊢
  rcases hab with h1 | ⟨e1, l1⟩
  · rcases hbc with h2 | ⟨e2, _⟩
    · exact Or.inl (h1.trans h2)
    · exact Or.inl (e2 ▸ h1)
  · rcases hbc with h2 | ⟨e2, l2⟩
    · exact Or.inl (e1 ▸ h2)
    · exact Or.inr ⟨e1.trans e2, l2.trans l1⟩

theorem descByTotal_total (a b : String × ℚ) :
    descByTotal a b = true ∨ descByTotal b a = true := by
  simp only [descByTotal, decide_eq_true_eq]
  exact (le_total b.2 a.2).imp id id

theorem descByTotal_trans (a b c : String × ℚ)
    (hab : descByTotal a b = true) (hbc : descByTotal b c = true) :
    descByTotal a c = true := by
  simp only [descByTotal, decide_eq_true_eq] at hab hbc ⊢
  exact hbc.trans hab

theorem eq_map_const_fst {β : Type} (k : String) :
    ∀ l : List (String × β), (∀ p ∈ l, p.1 = k) →
      l = l.map (fun p => (k, p.2)) := by
  intro l
  induction l with
  | nil => intro _; rfl
  | cons a t ih =>
    intro h
    obtain ⟨a1, a2⟩ := a
    have ha := h (a1, a2) (List.mem_cons_self _ t)
    simp only at ha
    subst ha
    simp only [List.map_cons]
    rw [← ih (fun p hp => h p (List.mem_cons_of_mem _ hp))]

theorem filtered_scores_eq (rows : List (String × String × ℚ)) (k : String) :
    ((q_totals_sorted rows).filter (fun e => decide (e.1.1 = k))).map
        (fun e => e.2) =
      (stableSort descByTotal (spec_totals rows k)).map (fun e => e.2) := by
  classical
  set pairs := rows.map (fun r => (r.1, r.2.1)) with hpairs
  set P := stableSort groupKeyLE (firstOccs pairs) with hP
  set tot := fun p : String × String =>
    ((rows.filter (fun r => decide ((r.1, r.2.1) = p))).map
      (fun r => r.2.2)).sum with htotdef
  set Pk := P.filter (fun p => decide (p.1 = k)) with hPk
  set L := (q_totals_sorted rows).filter (fun e => decide (e.1.1 = k)) with hL
  set Sq := spec_question_order rows k with hSq
  have hfm : (q_totals rows).filter (fun e => decide (e.1.1 = k)) =
      Pk.map (fun p => (p, tot p)) := by
    show ((P.map (fun p => (p, tot p))).filter _) = _
    rw [List.filter_map]
    rfl
  have hfst : ∀ p ∈ Pk, p.1 = k := by
    intro p hp
    have := (List.mem_filter.mp hp).2
    simpa using this
  have hmapconst : Pk = Pk.map (fun p => (k, p.2)) := eq_map_const_fst k Pk hfst
  have h5 : Pk.map tot = (Pk.map Prod.snd).map (fun q => tot (k, q)) := by
    conv_lhs => rw [hmapconst]
    rw [List.map_map, List.map_map]
    rfl
  have htot : ∀ q, tot (k, q) = q_total rows k q := by
    intro q
    have hfeq : rows.filter (fun r => decide ((r.1, r.2.1) = (k, q))) =
        rows.filter (fun r => decide (r.1 = k ∧ r.2.1 = q)) := by
      apply List.filter_congr
      intro r _
      simp [Prod.ext_iff]
    simp only [htotdef, q_total, hfeq]
  have hnodupP : P.Nodup :=
    ((stableSort_perm groupKeyLE _).nodup_iff).mpr (nodup_firstOccs pairs)
  have hnodupPk : Pk.Nodup := hnodupP.filter _
  have hnodupPks : (Pk.map Prod.snd).Nodup := by
    refine hnodupPk.map_on ?_
    intro x hx y hy hxy
    exact Prod.ext ((hfst x hx).trans (hfst y hy).symm) hxy
  have hnodupS : Sq.Nodup := nodup_firstOccs _
  have hmemiff : ∀ q, q ∈ Pk.map Prod.snd ↔ q ∈ Sq := by
    intro q
    constructor
    · rintro hq
      obtain ⟨p, hp, rfl⟩ := List.mem_map.mp hq
      obtain ⟨hpP, hpk⟩ := List.mem_filter.mp hp
      have hpk' : p.1 = k := by simpa using hpk
      have hpPairs : p ∈ pairs :=
        (mem_firstOccs p pairs).mp
          ((stableSort_perm groupKeyLE _).mem_iff.mp hpP)
      obtain ⟨r, hr, hrp⟩ := List.mem_map.mp hpPairs
      rw [hSq]
      rw [spec_question_order, mem_firstOccs]
      refine List.mem_map.mpr ⟨r, ?_, ?_⟩
      · refine List.mem_filter.mpr ⟨hr, ?_⟩
        have : r.1 = p.1 := congrArg Prod.fst hrp
        simp [this, hpk']
      · exact congrArg Prod.snd hrp
    · intro hq
      rw [hSq, spec_question_order, mem_firstOccs] at hq
      obtain ⟨r, hr, hrq⟩ := List.mem_map.mp hq
      obtain ⟨hrrow, hrk⟩ := List.mem_filter.mp hr
      have hrk' : r.1 = k := by simpa using hrk
      refine List.mem_map.mpr ⟨(k, q), ?_, rfl⟩
      refine List.mem_filter.mpr ⟨?_, by simp⟩
      rw [hP]
      rw [(stableSort_perm groupKeyLE _).mem_iff, mem_firstOccs]
      refine List.mem_map.mpr ⟨r, hrrow, ?_⟩
      rw [hrk', hrq]
  have hfinset : (Pk.map Prod.snd).toFinset = Sq.toFinset := by
    apply Finset.ext
    intro q
    simpa [List.mem_toFinset] using hmemiff q
  have hpermQ : (Pk.map Prod.snd).Perm Sq :=
    List.perm_of_nodup_nodup_toFinset_eq hnodupPks hnodupS hfinset
  have hspecmap : (spec_totals rows k).map (fun e => e.2) =
      Sq.map (fun q => q_total rows k q) := by
    rw [spec_totals, List.map_map]
    rfl
  have hperm : (L.map (fun e => e.2)).Perm
      ((stableSort descByTotal (spec_totals rows k)).map (fun e => e.2)) := by
    have p1 : (L.map (fun e => e.2)).Perm
        (((q_totals rows).filter (fun e => decide (e.1.1 = k))).map
          (fun e => e.2)) :=
      ((stableSort_perm qScoreLE (q_totals rows)).filter _).map _
    have p2 : ((q_totals rows).filter (fun e => decide (e.1.1 = k))).map
        (fun e => e.2) = (Pk.map Prod.snd).map (fun q => tot (k, q)) := by
      rw [hfm, List.map_map]
      exact h5
    have p3 : ((Pk.map Prod.snd).map (fun q => tot (k, q))).Perm
        (Sq.map (fun q => tot (k, q))) := hpermQ.map _
    have p4 : Sq.map (fun q => tot (k, q)) =
        (spec_totals rows k).map (fun e => e.2) := by
      rw [hspecmap]
      exact List.map_congr_left (fun q _ => htot q)
    have p5 : ((spec_totals rows k).map (fun e => e.2)).Perm
        ((stableSort descByTotal (spec_totals rows k)).map (fun e => e.2)) :=
      ((stableSort_perm descByTotal (spec_totals rows k)).map _).symm
    exact (((p1.trans (p2 ▸ List.Perm.refl _)).trans p3).trans
      (p4 ▸ List.Perm.refl _)).trans p5
  have s0 : (q_totals_sorted rows).Pairwise (fun x y => qScoreLE x y = true) :=
    pairwise_stableSort qScoreLE qScoreLE_total qScoreLE_trans _
  have sL2 : L.Pairwise (fun a b => b.2 ≤ a.2) := by
    refine (s0.filter _).imp_of_mem ?_
    intro a b ha hb hab
    have hak : a.1.1 = k := by simpa using (List.mem_filter.mp ha).2
    have hbk : b.1.1 = k := by simpa using (List.mem_filter.mp hb).2
    rcases (by simpa [qScoreLE] using hab :
        a.1.1 < b.1.1 ∨ (a.1.1 = b.1.1 ∧ b.2 ≤ a.2)) with h | h
    · rw [hak, hbk] at h
      exact absurd h (lt_irrefl k)
    · exact h.2
  have sLm : (L.map (fun e => e.2)).Pairwise (fun a b : ℚ => b ≤ a) :=
    List.pairwise_map.mpr sL2
  have sR2 : (stableSort descByTotal (spec_totals rows k)).Pairwise
      (fun a b => b.2 ≤ a.2) := by
    refine (pairwise_stableSort descByTotal descByTotal_total
      descByTotal_trans _).imp ?_
    intro a b h
    simpa [descByTotal] using h
  have sRm : ((stableSort descByTotal (spec_totals rows k)).map
      (fun e => e.2)).Pairwise (fun a b : ℚ => b ≤ a) :=
    List.pairwise_map.mpr sR2
  haveI : IsAntisymm ℚ (fun a b => b ≤ a) :=
    ⟨fun a b h1 h2 => le_antisymm h2 h1⟩
  exact List.eq_of_perm_of_sorted hperm sLm sRm

/-- Claim C1: for every attempt in the executed results, `dataframe` computes
`best_n_total` as the sum of the `best_n` highest per-question totals (ties
broken by first-seen question order — `spec_best_n_total` sorts the
first-seen-ordered totals with a stable sort), and an attempt with fewer
than `best_n` questions gets the plain sum of all its question totals. -/
theorem dataframe_best_n_is_top_n (n : Nat) (smin smax : ℚ)
    (executed_results : List (String × List (String × ℚ))) :
    ∀ e ∈ attempt_scores n smin smax executed_results,
      e.2.1 = spec_best_n_total n (result_rows executed_results) e.1 ∧
      ((spec_totals (result_rows executed_results) e.1).length ≤ n →
        e.2.1 = ((spec_totals (result_rows executed_results) e.1).map
          (fun t => t.2)).sum) := by
  intro e he
  simp only [attempt_scores] at he
  obtain ⟨k, hk, rfl⟩ := List.mem_map.mp he
  have hmain : best_n_total n (result_rows executed_results) k =
      spec_best_n_total n (result_rows executed_results) k := by
    rw [best_n_total, spec_best_n_total, List.map_take, List.map_take,
      filtered_scores_eq]
  refine ⟨hmain, ?_⟩
  intro hlen
  have hlen2 : ((stableSort descByTotal
      (spec_totals (result_rows executed_results) k)).map
        (fun e => e.2)).length ≤ n := by
    rw [List.length_map,
      (stableSort_perm descByTotal _).length_eq]
    exact hlen
  have : spec_best_n_total n (result_rows executed_results) k =
      ((spec_totals (result_rows executed_results) k).map
        (fun t => t.2)).sum := by
    rw [spec_best_n_total, List.map_take, List.take_of_length_le hlen2]
    exact ((stableSort_perm descByTotal _).map _).sum_eq
  exact hmain.trans this

theorem foldl_min_le (xs : List ℚ) :
    ∀ a : ℚ, xs.foldl min a ≤ a ∧ ∀ y ∈ xs, xs.foldl min a ≤ y := by
  induction xs with
  | nil => intro a; exact ⟨le_refl a, by simp⟩
  | cons x xs ih =>
    intro a
    have h := ih (min a x)
    refine ⟨h.1.trans (min_le_left a x), ?_⟩
    intro y hy
    rcases List.mem_cons.mp hy with rfl | hy
    · exact h.1.trans (min_le_right a y)
    · exact h.2 y hy

theorem foldl_le_max (xs : List ℚ) :
    ∀ a : ℚ, a ≤ xs.foldl max a ∧ ∀ y ∈ xs, y ≤ xs.foldl max a := by
  induction xs with
  | nil => intro a; exact ⟨le_refl a, by simp⟩
  | cons x xs ih =>
    intro a
    have h := ih (max a x)
    refine ⟨(le_max_left a x).trans h.1, ?_⟩
    intro y hy
    rcases List.mem_cons.mp hy with rfl | hy
    · exact (le_max_right a y).trans h.1
    · exact h.2 y hy

theorem listMin_le_of_mem {l : List ℚ} {y : ℚ} (hy : y ∈ l) :
    listMin l ≤ y := by
  cases l with
  | nil => simp at hy
  | cons x xs =>
    rcases List.mem_cons.mp hy with rfl | hy
    · exact (foldl_min_le xs y).1
    · exact (foldl_min_le xs x).2 y hy

theorem le_listMax_of_mem {l : List ℚ} {y : ℚ} (hy : y ∈ l) :
    y ≤ listMax l := by
  cases l with
  | nil => simp at hy
  | cons x xs =>
    rcases List.mem_cons.mp hy with rfl | hy
    · exact (foldl_le_max xs y).1
    · exact (foldl_le_max xs x).2 y hy

/-- Claim C2: in `dataframe`, when the population minimum and maximum of
`best_n_total` coincide every attempt's scaled score is `scaled_min`, and
otherwise each attempt's scaled score follows the linear rescaling formula. -/
theorem dataframe_scaled_formula (n : Nat) (smin smax : ℚ)
    (executed_results : List (String × List (String × ℚ))) :
    ∀ e ∈ attempt_scores n smin smax executed_results,
      (min_raw n (result_rows executed_results) =
          max_raw n (result_rows executed_results) → e.2.2 = smin) ∧
      (min_raw n (result_rows executed_results) ≠
          max_raw n (result_rows executed_results) →
        e.2.2 = smin +
          (e.2.1 - min_raw n (result_rows executed_results)) * (smax - smin) /
            (max_raw n (result_rows executed_results) -
              min_raw n (result_rows executed_results))) := by
  intro e he
  simp only [attempt_scores] at he
  obtain ⟨k, hk, rfl⟩ := List.mem_map.mp he
  constructor
  · intro hmm
    simp [scaled, hmm]
  · intro hmm
    simp [scaled, hmm]

/-- Claim C8: whenever `scaled_min ≤ scaled_max`, every attempt's scaled
score lies in the closed interval `[scaled_min, scaled_max]`. -/
theorem scaled_within_range (n : Nat) (smin smax : ℚ)
    (executed_results : List (String × List (String × ℚ)))
    (h : smin ≤ smax) :
    ∀ e ∈ attempt_scores n smin smax executed_results,
      smin ≤ e.2.2 ∧ e.2.2 ≤ smax := by
  intro e he
  simp only [attempt_scores] at he
  obtain ⟨k, hk, rfl⟩ := List.mem_map.mp he
  have hbmem : best_n_total n (result_rows executed_results) k ∈
      bn_list n (result_rows executed_results) :=
    List.mem_map_of_mem _ hk
  have h1 : min_raw n (result_rows executed_results) ≤
      best_n_total n (result_rows executed_results) k :=
    listMin_le_of_mem hbmem
  have h2 : best_n_total n (result_rows executed_results) k ≤
      max_raw n (result_rows executed_results) :=
    le_listMax_of_mem hbmem
  by_cases hmm : min_raw n (result_rows executed_results) =
      max_raw n (result_rows executed_results)
  · refine ⟨?_, ?_⟩ <;> simp [scaled, hmm]
    exact h
  · have hlt : min_raw n (result_rows executed_results) <
        max_raw n (result_rows executed_results) :=
      lt_of_le_of_ne (h1.trans h2) hmm
    have hden : (0:ℚ) < max_raw n (result_rows executed_results) -
        min_raw n (result_rows executed_results) := sub_pos.mpr hlt
    have hlower : (0:ℚ) ≤
        (best_n_total n (result_rows executed_results) k -
            min_raw n (result_rows executed_results)) * (smax - smin) /
          (max_raw n (result_rows executed_results) -
            min_raw n (result_rows executed_results)) :=
      div_nonneg (mul_nonneg (sub_nonneg.mpr h1) (sub_nonneg.mpr h)) hden.le
    have hupper :
        (best_n_total n (result_rows executed_results) k -
            min_raw n (result_rows executed_results)) * (smax - smin) /
          (max_raw n (result_rows executed_results) -
            min_raw n (result_rows executed_results)) ≤ smax - smin := by
      rw [div_le_iff₀ hden]
      calc (best_n_total n (result_rows executed_results) k -
              min_raw n (result_rows executed_results)) * (smax - smin)
          ≤ (max_raw n (result_rows executed_results) -
              min_raw n (result_rows executed_results)) * (smax - smin) :=
            mul_le_mul_of_nonneg_right (sub_le_sub_right h2 _)
              (sub_nonneg.mpr h)
        _ = (smax - smin) * (max_raw n (result_rows executed_results) -
              min_raw n (result_rows executed_results)) := mul_comm _ _
    constructor
    · simp only [scaled, if_neg hmm]
      linarith
    · simp only [scaled, if_neg hmm]
      linarith

/-- Witness for claim C1 at a concrete run of one attempt with one question. -/
theorem dataframe_best_n_is_top_n_witness :
    (("a.py", (1:ℚ), (10:ℚ)) ∈
      attempt_scores 1 10 20 [("a.py", [("q1", (1:ℚ))])]) ∧
    ("a.py", (1:ℚ), (10:ℚ)).2.1 =
      spec_best_n_total 1 (result_rows [("a.py", [("q1", (1:ℚ))])])
        ("a.py", (1:ℚ), (10:ℚ)).1 := by
  have hmem : ("a.py", (1:ℚ), (10:ℚ)) ∈
      attempt_scores 1 10 20 [("a.py", [("q1", (1:ℚ))])] := by
    norm_num [attempt_scores, attempt_keys, q_totals_sorted, q_totals,
      stableSort, insertSorted, firstOccs, firstOccsAux, result_rows,
      best_n_total, scaled, min_raw, max_raw, bn_list, listMin, listMax]
  exact ⟨hmem,
    (dataframe_best_n_is_top_n 1 10 20 [("a.py", [("q1", (1:ℚ))])] _ hmem).1⟩

/-- Witness for claim C2 at a single-attempt run (`min == max`). -/
theorem dataframe_scaled_formula_witness :
    (("a.py", (1:ℚ), (10:ℚ)) ∈
      attempt_scores 1 10 20 [("a.py", [("q1", (1:ℚ))])]) ∧
    min_raw 1 (result_rows [("a.py", [("q1", (1:ℚ))])]) =
      max_raw 1 (result_rows [("a.py", [("q1", (1:ℚ))])]) ∧
    ("a.py", (1:ℚ), (10:ℚ)).2.2 = 10 := by
  have hmem : ("a.py", (1:ℚ), (10:ℚ)) ∈
      attempt_scores 1 10 20 [("a.py", [("q1", (1:ℚ))])] := by
    norm_num [attempt_scores, attempt_keys, q_totals_sorted, q_totals,
      stableSort, insertSorted, firstOccs, firstOccsAux, result_rows,
      best_n_total, scaled, min_raw, max_raw, bn_list, listMin, listMax]
  have hmm : min_raw 1 (result_rows [("a.py", [("q1", (1:ℚ))])]) =
      max_raw 1 (result_rows [("a.py", [("q1", (1:ℚ))])]) := by
    norm_num [q_totals_sorted, q_totals, stableSort, insertSorted, firstOccs,
      firstOccsAux, result_rows, best_n_total, min_raw, max_raw, bn_list,
      listMin, listMax, attempt_keys]
  exact ⟨hmem, hmm,
    (dataframe_scaled_formula 1 10 20 [("a.py", [("q1", (1:ℚ))])] _ hmem).1 hmm⟩

/-- Witness for claim C8 at a concrete input with `scaled_min ≤ scaled_max`. -/
theorem scaled_within_range_witness :
    ((10:ℚ) ≤ 20) ∧
    ((10:ℚ) ≤ ("a.py", (1:ℚ), (10:ℚ)).2.2 ∧
      ("a.py", (1:ℚ), (10:ℚ)).2.2 ≤ 20) := by
  have hmem : ("a.py", (1:ℚ), (10:ℚ)) ∈
      attempt_scores 1 10 20 [("a.py", [("q1", (1:ℚ))])] := by
    norm_num [attempt_scores, attempt_keys, q_totals_sorted, q_totals,
      stableSort, insertSorted, firstOccs, firstOccsAux, result_rows,
      best_n_total, scaled, min_raw, max_raw, bn_list, listMin, listMax]
  exact ⟨by norm_num,
    scaled_within_range 1 10 20 [("a.py", [("q1", (1:ℚ))])] (by norm_num) _
      hmem⟩

end Instantgrade
